import Mathlib

/-!
Verification of the Complex-YOLO detection head (`src/models/yolo_layer.py`).

The Python module is shallowly embedded here:
* float scalars are embedded as rationals (`ℚ`) wherever the code only uses
  field arithmetic and comparisons, so that everything stays decidable;
  the transcendental functions `log`, `exp` and `sigmoid` appearing in the
  decode / loss paths are embedded through `Real.log` / `Real.exp` applied
  to casts of those rationals;
* tensors are embedded as total functions from index tuples to scalars;
  in-place vectorised writes (`t[b, n, j, i] = v`) become functional updates
  folded over the list of ground-truth rows, which also captures the
  "last write wins" semantics of duplicate indices;
* the externally supplied rotated-IoU primitive
  (`rotated_box_wh_iou_polygon`, imported from `utils.evaluation_utils`,
  outside this module) is a parameter `iou` of every definition that uses it;
* `nn.MSELoss()` / `nn.BCELoss()` use mean reduction, whose value on an
  empty selection is NaN; losses are therefore embedded as `Option ℝ`
  with `none` playing the role of NaN, and NaN propagates through `+`/`*`.
-/

namespace ComplexYolo

/-- One anchor, a 4-tuple `(w, h, im, re)` as stored in `self.anchors`
and in `self.scaled_anchors`. -/
structure Anchor where
  w : ℚ
  h : ℚ
  im : ℚ
  re : ℚ
  deriving DecidableEq

/-- One ground-truth row `target[k, :]`, 8 scalars
`(box_idx, class, x, y, w, l, sin(yaw), cos(yaw))` (forward's docstring). -/
structure GTRow where
  b : ℚ
  label : ℚ
  x : ℚ
  y : ℚ
  w : ℚ
  h : ℚ
  im : ℚ
  re : ℚ
  deriving DecidableEq

/-- Embedding of the `.long()` cast on a float tensor: truncation toward
zero. -/
def toLong (q : ℚ) : ℤ := if 0 ≤ q then ⌊q⌋ else ⌈q⌉

/-- Index into a rank-4 tensor `(batch, anchor, row, col)`. -/
abbrev Idx4 := ℕ × ℕ × ℕ × ℕ

/-- Index into the rank-5 class tensor `(batch, anchor, row, col, class)`. -/
abbrev Idx5 := ℕ × ℕ × ℕ × ℕ × ℕ

/-- Functional update of a tensor-as-function at a single index; the
embedding of an in-place write `t[s] = v`. -/
def upd {β α : Type} [DecidableEq β] (f : β → α) (s : β) (v : α) : β → α :=
  fun x => if x = s then v else f x

theorem upd_self {β α : Type} [DecidableEq β] (f : β → α) (s : β) (v : α) :
    upd f s v s = v := by
  simp [upd]

theorem upd_ne {β α : Type} [DecidableEq β] (f : β → α) (s x : β) (v : α)
    (h : x ≠ s) : upd f s v x = f x := by
  simp [upd, h]

/-- Maximum of a list of rationals, `0` on the empty list; the recursion
mirrors the reduction performed by `torch.max(dim=0)` over the anchor
dimension. -/
def listMax : List ℚ → ℚ
  | [] => 0
  | [q] => q
  | q :: r :: l => max q (listMax (r :: l))

/-- Index of the first occurrence of the maximum of a list, `0` on the empty
list: the index returned by `torch.max(dim=0)`, whose documented tie-break
is the first maximal index. -/
def argmaxFst : List ℚ → ℕ
  | [] => 0
  | [_] => 0
  | q :: r :: l => if q < listMax (r :: l) then argmaxFst (r :: l) + 1 else 0

theorem argmaxFst_lt_length (l : List ℚ) (h : l ≠ []) :
    argmaxFst l < l.length := by
  induction l with
  | nil => exact absurd rfl h
  | cons q t ih =>
    cases t with
    | nil => simp [argmaxFst]
    | cons r t' =>
      by_cases hq : q < listMax (r :: t')
      · have := ih (by simp)
        simp only [argmaxFst, if_pos hq, List.length_cons] at this ⊢
        omega
      · simp [argmaxFst, if_neg hq]

theorem getD_argmaxFst (l : List ℚ) (h : l ≠ []) :
    l.getD (argmaxFst l) 0 = listMax l := by
  induction l with
  | nil => exact absurd rfl h
  | cons q t ih =>
    cases t with
    | nil => simp [argmaxFst, listMax]
    | cons r t' =>
      by_cases hq : q < listMax (r :: t')
      · have hrec := ih (by simp)
        simp only [argmaxFst, if_pos hq, listMax, List.getD_cons_succ]
        rw [hrec]
        exact (max_eq_right (le_of_lt hq)).symm
      · simp only [argmaxFst, if_neg hq, listMax, List.getD_cons_zero]
        push_neg at hq
        exact (max_eq_left hq).symm

theorem getD_le_listMax (l : List ℚ) (k : ℕ) (hk : k < l.length) :
    l.getD k 0 ≤ listMax l := by
  induction l generalizing k with
  | nil => simp at hk
  | cons q t ih =>
    cases t with
    | nil =>
      cases k with
      | zero => simp [listMax]
      | succ k' => simp at hk
    | cons r t' =>
      cases k with
      | zero => simp [listMax]
      | succ k' =>
        have := ih k' (by simpa using hk)
        simp only [List.getD_cons_succ, listMax]
        exact le_trans this (le_max_right _ _)

theorem getD_lt_of_lt_argmaxFst (l : List ℚ) (k : ℕ) (hk : k < argmaxFst l) :
    l.getD k 0 < l.getD (argmaxFst l) 0 := by
  induction l generalizing k with
  | nil => simp [argmaxFst] at hk
  | cons q t ih =>
    cases t with
    | nil => simp [argmaxFst] at hk
    | cons r t' =>
      by_cases hq : q < listMax (r :: t')
      · rw [argmaxFst, if_pos hq] at hk ⊢
        cases k with
        | zero =>
          simp only [List.getD_cons_zero, List.getD_cons_succ]
          rw [getD_argmaxFst (r :: t') (by simp)]
          exact hq
        | succ k' =>
          simp only [List.getD_cons_succ]
          exact ih k' (by omega)
      · rw [argmaxFst, if_neg hq] at hk
        omega

theorem foldl_upd_true_iff {β γ : Type} [DecidableEq β] (wslot : γ → β)
    (l : List γ) (init : β → Bool) (x : β) :
    (l.foldl (fun m t => upd m (wslot t) true) init) x = true ↔
      init x = true ∨ ∃ t ∈ l, wslot t = x := by
  induction l generalizing init with
  | nil => simp
  | cons u us ih =>
    rw [List.foldl_cons, ih]
    constructor
    · rintro (h | h)
      · by_cases hx : x = wslot u
        · exact Or.inr ⟨u, List.mem_cons_self u us, hx.symm⟩
        · rw [upd_ne _ _ _ _ hx] at h
          exact Or.inl h
      · obtain ⟨t, ht, hts⟩ := h
        exact Or.inr ⟨t, List.mem_cons_of_mem u ht, hts⟩
    · rintro (h | ⟨t, ht, hts⟩)
      · by_cases hx : x = wslot u
        · subst hx; rw [upd_self]; exact Or.inl rfl
        · rw [upd_ne _ _ _ _ hx]; exact Or.inl h
      · rcases List.mem_cons.mp ht with rfl | ht'
        · subst hts; rw [upd_self]; exact Or.inl rfl
        · exact Or.inr ⟨t, ht', hts⟩

theorem foldl_upd_false_iff {β γ : Type} [DecidableEq β] (wslot : γ → β)
    (l : List γ) (init : β → Bool) (x : β) :
    (l.foldl (fun m t => upd m (wslot t) false) init) x = false ↔
      init x = false ∨ ∃ t ∈ l, wslot t = x := by
  induction l generalizing init with
  | nil => simp
  | cons u us ih =>
    rw [List.foldl_cons, ih]
    constructor
    · rintro (h | h)
      · by_cases hx : x = wslot u
        · exact Or.inr ⟨u, List.mem_cons_self u us, hx.symm⟩
        · rw [upd_ne _ _ _ _ hx] at h
          exact Or.inl h
      · obtain ⟨t, ht, hts⟩ := h
        exact Or.inr ⟨t, List.mem_cons_of_mem u ht, hts⟩
    · rintro (h | ⟨t, ht, hts⟩)
      · by_cases hx : x = wslot u
        · subst hx; rw [upd_self]; exact Or.inl rfl
        · rw [upd_ne _ _ _ _ hx]; exact Or.inl h
      · rcases List.mem_cons.mp ht with rfl | ht'
        · subst hts; rw [upd_self]; exact Or.inl rfl
        · exact Or.inr ⟨t, ht', hts⟩

theorem foldl_clear_false_iff {β γ : Type} (cond : γ → β → Bool)
    (l : List γ) (init : β → Bool) (x : β) :
    (l.foldl (fun m t => fun y => if cond t y then false else m y) init) x
        = false ↔
      init x = false ∨ ∃ t ∈ l, cond t x = true := by
  induction l generalizing init with
  | nil => simp
  | cons u us ih =>
    rw [List.foldl_cons, ih]
    constructor
    · rintro (h | h)
      · by_cases hc : cond u x = true
        · exact Or.inr ⟨u, List.mem_cons_self u us, hc⟩
        · simp only [hc] at h
          simp only [Bool.false_eq_true, if_false] at h
          exact Or.inl h
      · obtain ⟨t, ht, hts⟩ := h
        exact Or.inr ⟨t, List.mem_cons_of_mem u ht, hts⟩
    · rintro (h | ⟨t, ht, hts⟩)
      · by_cases hc : cond u x = true
        · exact Or.inl (by simp [hc])
        · refine Or.inl ?_
          simp only [hc]
          simpa using h
      · rcases List.mem_cons.mp ht with rfl | ht'
        · exact Or.inl (by simp [hts])
        · exact Or.inr ⟨t, ht', hts⟩

theorem foldl_upd_agrees {β γ α : Type} [DecidableEq β] (wslot : γ → β)
    (wval : γ → α) (l : List γ) (init : β → α) (s : β) (v : α)
    (hinit : init s = v) (h : ∀ u ∈ l, wslot u = s → wval u = v) :
    (l.foldl (fun f u => upd f (wslot u) (wval u)) init) s = v := by
  induction l generalizing init with
  | nil => simpa using hinit
  | cons u us ih =>
    rw [List.foldl_cons]
    refine ih _ ?_ (fun u' hu' => h u' (List.mem_cons_of_mem u hu'))
    by_cases hs : s = wslot u
    · rw [hs, upd_self]
      exact h u (List.mem_cons_self u us) hs.symm
    · rw [upd_ne _ _ _ _ hs]
      exact hinit

theorem foldl_upd_eq_of_unique {β γ α : Type} [DecidableEq β] (wslot : γ → β)
    (wval : γ → α) (l : List γ) (init : β → α) (t : γ) (ht : t ∈ l)
    (huniq : ∀ u ∈ l, wslot u = wslot t → wval u = wval t) :
    (l.foldl (fun f u => upd f (wslot u) (wval u)) init) (wslot t) = wval t := by
  induction l generalizing init with
  | nil => cases ht
  | cons u us ih =>
    rw [List.foldl_cons]
    rcases List.mem_cons.mp ht with rfl | ht'
    · exact foldl_upd_agrees wslot wval us _ _ _ (upd_self _ _ _)
        (fun u' hu' hs => huniq u' (List.mem_cons_of_mem t hu') hs)
    · exact ih _ ht' (fun u' hu' => huniq u' (List.mem_cons_of_mem u hu'))

/-- The rotated-IoU primitive `rotated_box_wh_iou_polygon(anchor, gwh, gimre)`
is external to the module (imported from `utils.evaluation_utils`); it is a
parameter of the embedding: given one anchor and one ground truth's
`(gw, gh, gim, gre)` it yields the IoU. -/
abbrev IouFn := Anchor → ℚ → ℚ → ℚ → ℚ → ℚ

/-- `gxy = target_boxes[:, :2] * nG` : grid-unit center x of one row. -/
def gxQ (nG : ℕ) (t : GTRow) : ℚ := t.x * nG

/-- Grid-unit center y of one row. -/
def gyQ (nG : ℕ) (t : GTRow) : ℚ := t.y * nG

/-- `gwh = target_boxes[:, 2:4] * nG` : grid-unit width of one row. -/
def gwQ (nG : ℕ) (t : GTRow) : ℚ := t.w * nG

/-- Grid-unit height of one row. -/
def ghQ (nG : ℕ) (t : GTRow) : ℚ := t.h * nG

/-- The column of `ious` for one ground truth: the IoU of each anchor with
that ground truth (`torch.stack([... for anchor in anchors])`). -/
def iousFor (iou : IouFn) (anchors : List Anchor) (nG : ℕ) (t : GTRow) :
    List ℚ :=
  anchors.map fun a => iou a (gwQ nG t) (ghQ nG t) t.im t.re

/-- `best_ious, best_n = ious.max(0)` : index of the best anchor for one
ground truth, first maximal index on ties. -/
def bestN (iou : IouFn) (anchors : List Anchor) (nG : ℕ) (t : GTRow) : ℕ :=
  argmaxFst (iousFor iou anchors nG t)

/-- `b = target[:, 0].long()` as a tensor index. -/
def bIdx (t : GTRow) : ℕ := (toLong t.b).toNat

/-- `target_labels = target[:, 1].long()` as a tensor index. -/
def labelIdx (t : GTRow) : ℕ := (toLong t.label).toNat

/-- `gi = gxy[:, 0].long()` as a tensor index. -/
def giIdx (nG : ℕ) (t : GTRow) : ℕ := (toLong (gxQ nG t)).toNat

/-- `gj = gxy[:, 1].long()` as a tensor index. -/
def gjIdx (nG : ℕ) (t : GTRow) : ℕ := (toLong (gyQ nG t)).toNat

/-- The `(b, best_n, gj, gi)` slot written for one ground truth. -/
def slotF (iou : IouFn) (anchors : List Anchor) (nG : ℕ) (t : GTRow) : Idx4 :=
  (bIdx t, bestN iou anchors nG t, gjIdx nG t, giIdx nG t)

/-- The `(b, best_n, gj, gi, target_label)` slot of the one-hot class write. -/
def slot5 (iou : IouFn) (anchors : List Anchor) (nG : ℕ) (t : GTRow) : Idx5 :=
  (bIdx t, bestN iou anchors nG t, gjIdx nG t, giIdx nG t, labelIdx t)

/-- `obj_mask`: starts all-zero, then `obj_mask[b, best_n, gj, gi] = 1`
for every ground truth. -/
def objMaskF (iou : IouFn) (anchors : List Anchor) (nG : ℕ)
    (targets : List GTRow) : Idx4 → Bool :=
  targets.foldl (fun m t => upd m (slotF iou anchors nG t) true)
    (fun _ => false)

/-- `noobj_mask` after line 101: starts all-one, then
`noobj_mask[b, best_n, gj, gi] = 0` for every ground truth. -/
def noobjPre (iou : IouFn) (anchors : List Anchor) (nG : ℕ)
    (targets : List GTRow) : Idx4 → Bool :=
  targets.foldl (fun m t => upd m (slotF iou anchors nG t) false)
    (fun _ => true)

/-- The condition of the ignore-threshold loop, line 105: index `s` is
cleared for ground truth `t` when `s` lies at `t`'s batch row and cell and
its anchor's IoU with `t` exceeds `ignore_thresh`. -/
def ignoreCond (iou : IouFn) (anchors : List Anchor) (nG : ℕ) (thresh : ℚ)
    (t : GTRow) (s : Idx4) : Bool :=
  decide (s.1 = bIdx t ∧ s.2.1 < anchors.length ∧ s.2.2.1 = gjIdx nG t ∧
    s.2.2.2 = giIdx nG t ∧
    thresh < (iousFor iou anchors nG t).getD s.2.1 0)

/-- `noobj_mask` as returned: the best-anchor clears followed by the
ignore-threshold loop of lines 104-105. -/
def noobjMaskF (iou : IouFn) (anchors : List Anchor) (nG : ℕ) (thresh : ℚ)
    (targets : List GTRow) : Idx4 → Bool :=
  targets.foldl
    (fun m t => fun s => if ignoreCond iou anchors nG thresh t s then false
      else m s)
    (noobjPre iou anchors nG targets)

/-- The additive epsilon `1e-16` guarding `torch.log`. -/
def epsQ : ℚ := 1 / 10 ^ 16

/-- Fallback anchor for out-of-range anchor indexing (never reached on the
in-range indices the claims quantify over). -/
def anchor0 : Anchor := ⟨0, 0, 0, 0⟩

/-- `tx[b, best_n, gj, gi] = gx - gx.floor()`, zero elsewhere. -/
def txT (iou : IouFn) (anchors : List Anchor) (nG : ℕ)
    (targets : List GTRow) : Idx4 → ℚ :=
  targets.foldl
    (fun f t => upd f (slotF iou anchors nG t) (gxQ nG t - ⌊gxQ nG t⌋))
    (fun _ => 0)

/-- `ty[b, best_n, gj, gi] = gy - gy.floor()`, zero elsewhere. -/
def tyT (iou : IouFn) (anchors : List Anchor) (nG : ℕ)
    (targets : List GTRow) : Idx4 → ℚ :=
  targets.foldl
    (fun f t => upd f (slotF iou anchors nG t) (gyQ nG t - ⌊gyQ nG t⌋))
    (fun _ => 0)

/-- `tw[b, best_n, gj, gi] = log(gw / anchors[best_n][:, 0] + 1e-16)`,
zero elsewhere. -/
noncomputable def twT (iou : IouFn) (anchors : List Anchor) (nG : ℕ)
    (targets : List GTRow) : Idx4 → ℝ :=
  targets.foldl
    (fun f t => upd f (slotF iou anchors nG t)
      (Real.log
        ((gwQ nG t / (anchors.getD (bestN iou anchors nG t) anchor0).w
          + epsQ : ℚ) : ℝ)))
    (fun _ => 0)

/-- `th[b, best_n, gj, gi] = log(gh / anchors[best_n][:, 1] + 1e-16)`,
zero elsewhere. -/
noncomputable def thT (iou : IouFn) (anchors : List Anchor) (nG : ℕ)
    (targets : List GTRow) : Idx4 → ℝ :=
  targets.foldl
    (fun f t => upd f (slotF iou anchors nG t)
      (Real.log
        ((ghQ nG t / (anchors.getD (bestN iou anchors nG t) anchor0).h
          + epsQ : ℚ) : ℝ)))
    (fun _ => 0)

/-- `tim[b, best_n, gj, gi] = gim`, zero elsewhere. -/
def timT (iou : IouFn) (anchors : List Anchor) (nG : ℕ)
    (targets : List GTRow) : Idx4 → ℚ :=
  targets.foldl (fun f t => upd f (slotF iou anchors nG t) t.im)
    (fun _ => 0)

/-- `tre[b, best_n, gj, gi] = gre`, zero elsewhere. -/
def treT (iou : IouFn) (anchors : List Anchor) (nG : ℕ)
    (targets : List GTRow) : Idx4 → ℚ :=
  targets.foldl (fun f t => upd f (slotF iou anchors nG t) t.re)
    (fun _ => 0)

/-- `tcls[b, best_n, gj, gi, target_labels] = 1`, zero elsewhere. -/
def tclsT (iou : IouFn) (anchors : List Anchor) (nG : ℕ)
    (targets : List GTRow) : Idx5 → ℚ :=
  targets.foldl (fun f t => upd f (slot5 iou anchors nG t) 1)
    (fun _ => 0)

/-- `tconf = obj_mask.float()` (recomputed on line 119 after the mask
writes). -/
def tconfT (iou : IouFn) (anchors : List Anchor) (nG : ℕ)
    (targets : List GTRow) : Idx4 → ℚ :=
  fun s => if objMaskF iou anchors nG targets s then 1 else 0

/-- The full return value of `build_targets`. -/
structure BuiltTargets where
  obj : Idx4 → Bool
  noobj : Idx4 → Bool
  tx : Idx4 → ℚ
  ty : Idx4 → ℚ
  tw : Idx4 → ℝ
  th : Idx4 → ℝ
  tim : Idx4 → ℚ
  tre : Idx4 → ℚ
  tcls : Idx5 → ℚ
  tconf : Idx4 → ℚ

/-- `build_targets(pred_cls, target, anchors)`: the shape argument
`pred_cls` only supplies tensor sizes, which the function embedding does
not need; the `n_target_boxes > 0` guard is invisible because every fold
over an empty row list already leaves all tensors at their initial
values. -/
noncomputable def build_targets (iou : IouFn) (anchors : List Anchor) (nG : ℕ)
    (thresh : ℚ) (targets : List GTRow) : BuiltTargets where
  obj := objMaskF iou anchors nG targets
  noobj := noobjMaskF iou anchors nG thresh targets
  tx := txT iou anchors nG targets
  ty := tyT iou anchors nG targets
  tw := twT iou anchors nG targets
  th := thT iou anchors nG targets
  tim := timT iou anchors nG targets
  tre := treT iou anchors nG targets
  tcls := tclsT iou anchors nG targets
  tconf := tconfT iou anchors nG targets

theorem objMaskF_true_iff (iou : IouFn) (anchors : List Anchor) (nG : ℕ)
    (targets : List GTRow) (s : Idx4) :
    objMaskF iou anchors nG targets s = true ↔
      ∃ t ∈ targets, slotF iou anchors nG t = s := by
  rw [objMaskF, foldl_upd_true_iff]
  simp

theorem noobjMaskF_false_iff (iou : IouFn) (anchors : List Anchor) (nG : ℕ)
    (thresh : ℚ) (targets : List GTRow) (s : Idx4) :
    noobjMaskF iou anchors nG thresh targets s = false ↔
      (∃ t ∈ targets, slotF iou anchors nG t = s) ∨
      (∃ t ∈ targets, ignoreCond iou anchors nG thresh t s = true) := by
  rw [noobjMaskF, foldl_clear_false_iff, noobjPre, foldl_upd_false_iff]
  simp

/-- A concrete rotated-IoU stand-in for witnesses (the real primitive lives
outside the module; every theorem quantifies over it). -/
def iouEx : IouFn := fun a gw _ _ _ => a.w * gw / 10

/-- A second concrete IoU stand-in, depending only on the anchor, used to
force a non-best anchor above the ignore threshold. -/
def iouEx2 : IouFn := fun a _ _ _ _ => a.w / 10

/-- The single scaled anchor of the end-to-end scenario of the spec. -/
def ancEx : List Anchor := [⟨2, 2, 0, 1⟩]

/-- Two anchors whose `iouEx2` values are 9/10 and 8/10. -/
def ancEx2 : List Anchor := [⟨9, 9, 0, 1⟩, ⟨8, 8, 0, 1⟩]

/-- The ground truth of the end-to-end scenario:
`(batch=0, class=0, x=0.5, y=0.5, w=0.25, h=0.25, sin=0, cos=1)`. -/
def rowEx : GTRow := ⟨0, 0, 1 / 2, 1 / 2, 1 / 4, 1 / 4, 0, 1⟩

/-- Claim C2: every ground truth marks exactly one `(batch, anchor, row,
col)` slot positive — `obj_mask` true and `noobj_mask` false at
`(b, best_n, gj, gi)`; a slot is positive exactly when some ground truth
selects it; `best_n` is the first-maximal argmax of the per-anchor IoUs;
and for non-negative coordinates `gi`/`gj` are the floors of the grid-unit
center. -/
theorem spec_C2 (iou : IouFn) (anchors : List Anchor) (nG : ℕ) (thresh : ℚ)
    (targets : List GTRow) (t : GTRow) (ht : t ∈ targets)
    (hx : 0 ≤ t.x) (hy : 0 ≤ t.y) :
    objMaskF iou anchors nG targets (slotF iou anchors nG t) = true ∧
    noobjMaskF iou anchors nG thresh targets (slotF iou anchors nG t)
      = false ∧
    (∀ s : Idx4, objMaskF iou anchors nG targets s = true ↔
      ∃ u ∈ targets, slotF iou anchors nG u = s) ∧
    (giIdx nG t : ℤ) = ⌊gxQ nG t⌋ ∧
    (gjIdx nG t : ℤ) = ⌊gyQ nG t⌋ ∧
    (∀ k, k < anchors.length →
      (iousFor iou anchors nG t).getD k 0 ≤
        (iousFor iou anchors nG t).getD (bestN iou anchors nG t) 0) ∧
    (∀ k, k < bestN iou anchors nG t →
      (iousFor iou anchors nG t).getD k 0 <
        (iousFor iou anchors nG t).getD (bestN iou anchors nG t) 0) := by
  have hgx : (0 : ℚ) ≤ gxQ nG t := mul_nonneg hx (by positivity)
  have hgy : (0 : ℚ) ≤ gyQ nG t := mul_nonneg hy (by positivity)
  refine ⟨?_, ?_, ?_, ?_, ?_, ?_, ?_⟩
  · exact (objMaskF_true_iff _ _ _ _ _).mpr ⟨t, ht, rfl⟩
  · exact (noobjMaskF_false_iff _ _ _ _ _ _).mpr (Or.inl ⟨t, ht, rfl⟩)
  · exact objMaskF_true_iff iou anchors nG targets
  · rw [giIdx, toLong, if_pos hgx]
    exact Int.toNat_of_nonneg (Int.floor_nonneg.mpr hgx)
  · rw [gjIdx, toLong, if_pos hgy]
    exact Int.toNat_of_nonneg (Int.floor_nonneg.mpr hgy)
  · intro k hk
    have hne : iousFor iou anchors nG t ≠ [] := by
      have : 0 < anchors.length := Nat.zero_lt_of_lt hk
      simp [iousFor, List.map_eq_nil_iff]
      intro hcon
      simp [hcon] at this
    rw [bestN, getD_argmaxFst _ hne]
    exact getD_le_listMax _ k (by simpa [iousFor] using hk)
  · intro k hk
    exact getD_lt_of_lt_argmaxFst _ k hk

/-- Witness for C2 at the end-to-end scenario of the spec (grid 2, one
anchor, ground truth centered at `(0.5, 0.5)`, landing in cell
`(gj, gi) = (1, 1)`). -/
theorem spec_C2_witness :
    objMaskF iouEx ancEx 2 [rowEx] (slotF iouEx ancEx 2 rowEx) = true ∧
    noobjMaskF iouEx ancEx 2 (1 / 2) [rowEx] (slotF iouEx ancEx 2 rowEx)
      = false ∧
    (∀ s : Idx4, objMaskF iouEx ancEx 2 [rowEx] s = true ↔
      ∃ u ∈ [rowEx], slotF iouEx ancEx 2 u = s) ∧
    (giIdx 2 rowEx : ℤ) = ⌊gxQ 2 rowEx⌋ ∧
    (gjIdx 2 rowEx : ℤ) = ⌊gyQ 2 rowEx⌋ ∧
    (∀ k, k < ancEx.length →
      (iousFor iouEx ancEx 2 rowEx).getD k 0 ≤
        (iousFor iouEx ancEx 2 rowEx).getD (bestN iouEx ancEx 2 rowEx) 0) ∧
    (∀ k, k < bestN iouEx ancEx 2 rowEx →
      (iousFor iouEx ancEx 2 rowEx).getD k 0 <
        (iousFor iouEx ancEx 2 rowEx).getD (bestN iouEx ancEx 2 rowEx) 0) :=
  spec_C2 iouEx ancEx 2 (1 / 2) [rowEx] rowEx (by simp) (by norm_num [rowEx])
    (by norm_num [rowEx])

/-- Concrete value of the assignment slot in the end-to-end scenario:
batch 0, anchor 0, cell `(gj, gi) = (1, 1)`. -/
theorem slotF_rowEx : slotF iouEx ancEx 2 rowEx = (0, 0, 1, 1) := by
  norm_num [slotF, bIdx, bestN, iousFor, gjIdx, giIdx, gxQ, gyQ, gwQ, ghQ,
    toLong, rowEx, iouEx, ancEx, argmaxFst]

/-- Claim C3: at the slot of a ground truth that is the unique claimant of
its `(b, best_n, gj, gi)` slot, `build_targets` writes `tx = gx - ⌊gx⌋`,
`ty = gy - ⌊gy⌋`, `tw = log(gw / scaled_anchor_w[best_n] + 1e-16)`,
`th` likewise with the anchor height, `tim`/`tre` equal to the ground
truth's sin/cos unchanged, `tcls` one-hot at the target class, and
`tconf` is everywhere the float cast of the final `obj_mask`. -/
theorem spec_C3 (iou : IouFn) (anchors : List Anchor) (nG : ℕ)
    (targets : List GTRow) (t : GTRow) (ht : t ∈ targets)
    (huniq : ∀ u ∈ targets,
      slotF iou anchors nG u = slotF iou anchors nG t → u = t)
    (s : Idx4) (hs : s = slotF iou anchors nG t) :
    txT iou anchors nG targets s = gxQ nG t - ⌊gxQ nG t⌋ ∧
    tyT iou anchors nG targets s = gyQ nG t - ⌊gyQ nG t⌋ ∧
    twT iou anchors nG targets s =
      Real.log ((gwQ nG t /
        (anchors.getD (bestN iou anchors nG t) anchor0).w + epsQ : ℚ) : ℝ) ∧
    thT iou anchors nG targets s =
      Real.log ((ghQ nG t /
        (anchors.getD (bestN iou anchors nG t) anchor0).h + epsQ : ℚ) : ℝ) ∧
    timT iou anchors nG targets s = t.im ∧
    treT iou anchors nG targets s = t.re ∧
    (∀ c : ℕ, tclsT iou anchors nG targets (s.1, s.2.1, s.2.2.1, s.2.2.2, c)
      = if c = labelIdx t then 1 else 0) ∧
    (∀ x : Idx4, tconfT iou anchors nG targets x =
      if objMaskF iou anchors nG targets x then 1 else 0) := by
  subst hs
  have hval : ∀ {α : Type} (wval : GTRow → α),
      ∀ u ∈ targets, slotF iou anchors nG u = slotF iou anchors nG t →
        wval u = wval t := by
    intro α wval u hu hsl
    rw [huniq u hu hsl]
  refine ⟨?_, ?_, ?_, ?_, ?_, ?_, ?_, fun _ => rfl⟩
  · exact foldl_upd_eq_of_unique (slotF iou anchors nG) _ targets _ t ht
      (hval _)
  · exact foldl_upd_eq_of_unique (slotF iou anchors nG) _ targets _ t ht
      (hval _)
  · exact foldl_upd_eq_of_unique (slotF iou anchors nG) _ targets _ t ht
      (hval _)
  · exact foldl_upd_eq_of_unique (slotF iou anchors nG) _ targets _ t ht
      (hval _)
  · exact foldl_upd_eq_of_unique (slotF iou anchors nG) _ targets _ t ht
      (hval _)
  · exact foldl_upd_eq_of_unique (slotF iou anchors nG) _ targets _ t ht
      (hval _)
  · intro c
    by_cases hc : c = labelIdx t
    · subst hc
      rw [if_pos rfl]
      exact foldl_upd_eq_of_unique (slot5 iou anchors nG) (fun _ => (1 : ℚ))
        targets _ t ht (fun _ _ _ => rfl)
    · rw [if_neg hc]
      refine foldl_upd_agrees (slot5 iou anchors nG) (fun _ => (1 : ℚ))
        targets _ _ 0 rfl ?_
      intro u hu h5
      exfalso
      simp only [slot5, slotF, Prod.mk.injEq] at h5
      obtain ⟨h1, h2, h3, h4, h5c⟩ := h5
      have hut : u = t := huniq u hu (by
        simp only [slotF, Prod.mk.injEq]
        exact ⟨h1, h2, h3, h4⟩)
      subst hut
      exact hc h5c.symm

/-- Witness for C3 at the end-to-end scenario: the unique ground truth
occupies slot `(0, 0, 1, 1)` and all regression targets take the claimed
closed forms. -/
theorem spec_C3_witness :
    txT iouEx ancEx 2 [rowEx] (0, 0, 1, 1) = gxQ 2 rowEx - ⌊gxQ 2 rowEx⌋ ∧
    tyT iouEx ancEx 2 [rowEx] (0, 0, 1, 1) = gyQ 2 rowEx - ⌊gyQ 2 rowEx⌋ ∧
    twT iouEx ancEx 2 [rowEx] (0, 0, 1, 1) =
      Real.log ((gwQ 2 rowEx /
        (ancEx.getD (bestN iouEx ancEx 2 rowEx) anchor0).w + epsQ : ℚ) : ℝ) ∧
    thT iouEx ancEx 2 [rowEx] (0, 0, 1, 1) =
      Real.log ((ghQ 2 rowEx /
        (ancEx.getD (bestN iouEx ancEx 2 rowEx) anchor0).h + epsQ : ℚ) : ℝ) ∧
    timT iouEx ancEx 2 [rowEx] (0, 0, 1, 1) = rowEx.im ∧
    treT iouEx ancEx 2 [rowEx] (0, 0, 1, 1) = rowEx.re ∧
    (∀ c : ℕ, tclsT iouEx ancEx 2 [rowEx] (0, 0, 1, 1, c)
      = if c = labelIdx rowEx then 1 else 0) ∧
    (∀ x : Idx4, tconfT iouEx ancEx 2 [rowEx] x =
      if objMaskF iouEx ancEx 2 [rowEx] x then 1 else 0) :=
  spec_C3 iouEx ancEx 2 [rowEx] rowEx (by simp)
    (fun u hu _ => List.mem_singleton.mp hu) (0, 0, 1, 1) slotF_rowEx.symm

/-- Claim C5: every anchor whose IoU with a ground truth exceeds
`ignore_thresh` has `noobj_mask` cleared at that ground truth's cell, even
when it is not the best anchor; and such a slot is not marked in
`obj_mask` unless it is some ground truth's best slot. -/
theorem spec_C5 (iou : IouFn) (anchors : List Anchor) (nG : ℕ) (thresh : ℚ)
    (targets : List GTRow) (t : GTRow) (ht : t ∈ targets) (a : ℕ)
    (ha : a < anchors.length)
    (hiou : thresh < (iousFor iou anchors nG t).getD a 0) :
    noobjMaskF iou anchors nG thresh targets
      (bIdx t, a, gjIdx nG t, giIdx nG t) = false ∧
    ((∀ u ∈ targets,
        slotF iou anchors nG u ≠ (bIdx t, a, gjIdx nG t, giIdx nG t)) →
      objMaskF iou anchors nG targets
        (bIdx t, a, gjIdx nG t, giIdx nG t) = false) := by
  constructor
  · refine (noobjMaskF_false_iff _ _ _ _ _ _).mpr (Or.inr ⟨t, ht, ?_⟩)
    have hiou' : thresh < ((iousFor iou anchors nG t)[a]?).getD 0 := by
      simpa [List.getD] using hiou
    simp [ignoreCond, ha, hiou']
  · intro hall
    rw [Bool.eq_false_iff]
    intro hobj
    obtain ⟨u, hu, hslot⟩ := (objMaskF_true_iff _ _ _ _ _).mp hobj
    exact hall u hu hslot

/-- Witness for C5: two anchors with IoUs 9/10 and 8/10; the second anchor
is not best but lies above the 1/2 ignore threshold, so its `noobj_mask`
slot is cleared while `obj_mask` stays false there. -/
theorem spec_C5_witness :
    noobjMaskF iouEx2 ancEx2 2 (1 / 2) [rowEx]
      (bIdx rowEx, 1, gjIdx 2 rowEx, giIdx 2 rowEx) = false ∧
    objMaskF iouEx2 ancEx2 2 [rowEx]
      (bIdx rowEx, 1, gjIdx 2 rowEx, giIdx 2 rowEx) = false := by
  have h1 : (1 : ℚ) / 2 < (iousFor iouEx2 ancEx2 2 rowEx).getD 1 0 := by
    norm_num [iousFor, iouEx2, ancEx2, gwQ, ghQ, rowEx]
  have h2 : ∀ u ∈ [rowEx], slotF iouEx2 ancEx2 2 u ≠
      (bIdx rowEx, 1, gjIdx 2 rowEx, giIdx 2 rowEx) := by
    intro u hu
    rw [List.mem_singleton.mp hu]
    have : bestN iouEx2 ancEx2 2 rowEx = 0 := by
      norm_num [bestN, iousFor, iouEx2, ancEx2, gwQ, ghQ, rowEx, argmaxFst,
        listMax]
    simp [slotF, this]
  exact ⟨(spec_C5 iouEx2 ancEx2 2 (1 / 2) [rowEx] rowEx (by simp) 1
      (by simp [ancEx2]) h1).1,
    (spec_C5 iouEx2 ancEx2 2 (1 / 2) [rowEx] rowEx (by simp) 1
      (by simp [ancEx2]) h1).2 h2⟩

/-- Claim C10: `obj_mask` and `noobj_mask` returned by `build_targets` are
disjoint at every index, for every input: `noobj_mask` is cleared wherever
`obj_mask` is set and no later statement re-sets it. -/
theorem spec_C10 (iou : IouFn) (anchors : List Anchor) (nG : ℕ) (thresh : ℚ)
    (targets : List GTRow) (s : Idx4) :
    (objMaskF iou anchors nG targets s &&
      noobjMaskF iou anchors nG thresh targets s) = false := by
  cases hobj : objMaskF iou anchors nG targets s with
  | false => simp
  | true =>
    obtain ⟨t, ht, hslot⟩ := (objMaskF_true_iff _ _ _ _ _).mp hobj
    have : noobjMaskF iou anchors nG thresh targets s = false :=
      (noobjMaskF_false_iff _ _ _ _ _ _).mpr (Or.inl ⟨t, ht, hslot⟩)
    simp [this]

/-- `torch.sigmoid`. -/
noncomputable def sigmoidR (z : ℝ) : ℝ := 1 / (1 + Real.exp (-z))

/-- The prediction tensor after
`x.view(num_samples, num_anchors, num_classes + 7, g, g).permute(0, 1, 3, 4, 2)`:
`prediction[s, a, j, i, c] = x[s, a * (num_classes + 7) + c, j, i]`. -/
def predT (nC : ℕ) (raw : ℕ → ℕ → ℕ → ℕ → ℝ) (s a j i c : ℕ) : ℝ :=
  raw s (a * (nC + 7) + c) j i

/-- `x = sigmoid(prediction[..., 0]) * scale_x_y - 0.5 * (scale_x_y - 1)`. -/
noncomputable def xOutF (nC : ℕ) (sxy : ℝ) (raw : ℕ → ℕ → ℕ → ℕ → ℝ)
    (s a j i : ℕ) : ℝ :=
  sigmoidR (predT nC raw s a j i 0) * sxy - 0.5 * (sxy - 1)

/-- `y = sigmoid(prediction[..., 1]) * scale_x_y - 0.5 * (scale_x_y - 1)`. -/
noncomputable def yOutF (nC : ℕ) (sxy : ℝ) (raw : ℕ → ℕ → ℕ → ℕ → ℝ)
    (s a j i : ℕ) : ℝ :=
  sigmoidR (predT nC raw s a j i 1) * sxy - 0.5 * (sxy - 1)

/-- `pred_boxes[..., c]` for `c < 6` (lines 154-160): center plus grid
offset, `exp`-scaled sizes, orientation passed through (`.detach()` has no
value-level effect). -/
noncomputable def predBoxes (nC : ℕ) (sxy : ℝ) (gridX gridY : ℕ → ℕ → ℝ)
    (anchorW anchorH : ℕ → ℝ) (raw : ℕ → ℕ → ℕ → ℕ → ℝ)
    (s a j i c : ℕ) : ℝ :=
  if c = 0 then xOutF nC sxy raw s a j i + gridX j i
  else if c = 1 then yOutF nC sxy raw s a j i + gridY j i
  else if c = 2 then Real.exp (predT nC raw s a j i 2) * anchorW a
  else if c = 3 then Real.exp (predT nC raw s a j i 3) * anchorH a
  else if c = 4 then predT nC raw s a j i 4
  else predT nC raw s a j i 5

/-- The concatenated output tensor (lines 162-167): flat box index
`n = a * g * g + j * g + i` (row-major `view(num_samples, -1, _)`), the
first four channels scaled by `stride`, then the unscaled orientation
pair, `sigmoid` objectness and `sigmoid` class scores. -/
noncomputable def outputAt (nC g : ℕ) (sxy stride : ℝ)
    (gridX gridY : ℕ → ℕ → ℝ) (anchorW anchorH : ℕ → ℝ)
    (raw : ℕ → ℕ → ℕ → ℕ → ℝ) (s n c : ℕ) : ℝ :=
  if c < 4 then
    predBoxes nC sxy gridX gridY anchorW anchorH raw
      s (n / (g * g)) ((n % (g * g)) / g) (n % g) c * stride
  else if c = 4 then
    predBoxes nC sxy gridX gridY anchorW anchorH raw
      s (n / (g * g)) ((n % (g * g)) / g) (n % g) 4
  else if c = 5 then
    predBoxes nC sxy gridX gridY anchorW anchorH raw
      s (n / (g * g)) ((n % (g * g)) / g) (n % g) 5
  else if c = 6 then
    sigmoidR (predT nC raw s (n / (g * g)) ((n % (g * g)) / g) (n % g) 6)
  else
    sigmoidR (predT nC raw s (n / (g * g)) ((n % (g * g)) / g) (n % g) c)

theorem flatIdx_decomp (a j i g : ℕ) (hj : j < g) (hi : i < g) :
    (a * (g * g) + (j * g + i)) / (g * g) = a ∧
    ((a * (g * g) + (j * g + i)) % (g * g)) / g = j ∧
    (a * (g * g) + (j * g + i)) % g = i := by
  have hg : 0 < g := Nat.zero_lt_of_lt hi
  have hr : j * g + i < g * g := by
    calc j * g + i < j * g + g := by omega
      _ = (j + 1) * g := by ring
      _ ≤ g * g := Nat.mul_le_mul_right g hj
  refine ⟨?_, ?_, ?_⟩
  · rw [Nat.add_comm, Nat.mul_comm a, Nat.add_mul_div_left _ _ (by positivity),
      Nat.div_eq_of_lt hr]
    omega
  · rw [Nat.add_comm, Nat.mul_comm a, Nat.add_mul_mod_self_left,
      Nat.mod_eq_of_lt hr, Nat.add_comm, Nat.mul_comm j,
      Nat.add_mul_div_left _ _ hg, Nat.div_eq_of_lt hi]
    omega
  · have hsplit : a * (g * g) + (j * g + i) = i + g * (a * g + j) := by ring
    rw [hsplit, Nat.add_mul_mod_self_left, Nat.mod_eq_of_lt hi]

/-- Claim C4: at every in-range `(anchor, cell)` slot, the decoded output
has center `sigmoid * scale_x_y - 0.5 * (scale_x_y - 1)` plus the grid
offset, sizes `exp * scaled_anchor`, orientation passed through unchanged;
center and size are multiplied by `stride` while orientation, objectness
and class sigmoids are not; flat index `a * g * g + j * g + i` stays below
`num_anchors * g * g`; at `scale_x_y = 1` the center is a plain sigmoid. -/
theorem spec_C4 (nA nC g : ℕ) (sxy stride : ℝ) (gridX gridY : ℕ → ℕ → ℝ)
    (anchorW anchorH : ℕ → ℝ) (raw : ℕ → ℕ → ℕ → ℕ → ℝ) (s a j i n : ℕ)
    (ha : a < nA) (hj : j < g) (hi : i < g)
    (hn : n = a * (g * g) + (j * g + i)) :
    outputAt nC g sxy stride gridX gridY anchorW anchorH raw s n 0 =
      (sigmoidR (predT nC raw s a j i 0) * sxy - 0.5 * (sxy - 1)
        + gridX j i) * stride ∧
    outputAt nC g sxy stride gridX gridY anchorW anchorH raw s n 1 =
      (sigmoidR (predT nC raw s a j i 1) * sxy - 0.5 * (sxy - 1)
        + gridY j i) * stride ∧
    outputAt nC g sxy stride gridX gridY anchorW anchorH raw s n 2 =
      Real.exp (predT nC raw s a j i 2) * anchorW a * stride ∧
    outputAt nC g sxy stride gridX gridY anchorW anchorH raw s n 3 =
      Real.exp (predT nC raw s a j i 3) * anchorH a * stride ∧
    outputAt nC g sxy stride gridX gridY anchorW anchorH raw s n 4 =
      predT nC raw s a j i 4 ∧
    outputAt nC g sxy stride gridX gridY anchorW anchorH raw s n 5 =
      predT nC raw s a j i 5 ∧
    outputAt nC g sxy stride gridX gridY anchorW anchorH raw s n 6 =
      sigmoidR (predT nC raw s a j i 6) ∧
    (∀ k : ℕ, outputAt nC g sxy stride gridX gridY anchorW anchorH raw
        s n (7 + k) = sigmoidR (predT nC raw s a j i (7 + k))) ∧
    (sxy = 1 →
      outputAt nC g sxy stride gridX gridY anchorW anchorH raw s n 0 =
        (sigmoidR (predT nC raw s a j i 0) + gridX j i) * stride) ∧
    n < nA * (g * g) := by
  subst hn
  obtain ⟨h1, h2, h3⟩ := flatIdx_decomp a j i g hj hi
  have hr : j * g + i < g * g := by
    calc j * g + i < j * g + g := by omega
      _ = (j + 1) * g := by ring
      _ ≤ g * g := Nat.mul_le_mul_right g hj
  refine ⟨?_, ?_, ?_, ?_, ?_, ?_, ?_, ?_, ?_, ?_⟩
  · simp only [outputAt, predBoxes, xOutF, h1, h2, h3]
    norm_num
  · simp only [outputAt, predBoxes, yOutF, h1, h2, h3]
    norm_num
  · simp only [outputAt, predBoxes, h1, h2, h3]
    norm_num
  · simp only [outputAt, predBoxes, h1, h2, h3]
    norm_num
  · simp only [outputAt, predBoxes, h1, h2, h3]
    norm_num
  · simp only [outputAt, predBoxes, h1, h2, h3]
    norm_num
  · simp only [outputAt, h1, h2, h3]
    norm_num
  · intro k
    have hk1 : ¬(7 + k < 4) := by omega
    have hk2 : 7 + k ≠ 4 := by omega
    have hk3 : 7 + k ≠ 5 := by omega
    have hk4 : 7 + k ≠ 6 := by omega
    simp only [outputAt, h1, h2, h3, if_neg hk1, if_neg hk2, if_neg hk3,
      if_neg hk4]
  · intro hsxy
    subst hsxy
    simp only [outputAt, predBoxes, xOutF, h1, h2, h3]
    norm_num
  · calc a * (g * g) + (j * g + i) < a * (g * g) + g * g := by omega
      _ = (a + 1) * (g * g) := by ring
      _ ≤ nA * (g * g) := Nat.mul_le_mul_right (g * g) ha

/-- Concrete grid-offset function for witnesses: `grid_x[j, i] = i`. -/
noncomputable def gridXEx : ℕ → ℕ → ℝ := fun _ i => (i : ℝ)

/-- Concrete grid-offset function for witnesses: `grid_y[j, i] = j`. -/
noncomputable def gridYEx : ℕ → ℕ → ℝ := fun j _ => (j : ℝ)

/-- Constant-one anchor dimension for witnesses. -/
noncomputable def oneF : ℕ → ℝ := fun _ => 1

/-- Constant-zero raw prediction tensor for witnesses. -/
noncomputable def rawEx : ℕ → ℕ → ℕ → ℕ → ℝ := fun _ _ _ _ => 0

/-- Witness for C4 at grid 2, one anchor, slot `(a, j, i) = (0, 1, 1)`,
flat index 3, `scale_x_y = 1` and stride 76. -/
theorem spec_C4_witness :
    outputAt 1 2 1 76 gridXEx gridYEx oneF oneF rawEx 0 3 0 =
      (sigmoidR (predT 1 rawEx 0 0 1 1 0) * 1 - 0.5 * (1 - 1)
        + gridXEx 1 1) * 76 ∧
    outputAt 1 2 1 76 gridXEx gridYEx oneF oneF rawEx 0 3 1 =
      (sigmoidR (predT 1 rawEx 0 0 1 1 1) * 1 - 0.5 * (1 - 1)
        + gridYEx 1 1) * 76 ∧
    outputAt 1 2 1 76 gridXEx gridYEx oneF oneF rawEx 0 3 2 =
      Real.exp (predT 1 rawEx 0 0 1 1 2) * oneF 0 * 76 ∧
    outputAt 1 2 1 76 gridXEx gridYEx oneF oneF rawEx 0 3 3 =
      Real.exp (predT 1 rawEx 0 0 1 1 3) * oneF 0 * 76 ∧
    outputAt 1 2 1 76 gridXEx gridYEx oneF oneF rawEx 0 3 4 =
      predT 1 rawEx 0 0 1 1 4 ∧
    outputAt 1 2 1 76 gridXEx gridYEx oneF oneF rawEx 0 3 5 =
      predT 1 rawEx 0 0 1 1 5 ∧
    outputAt 1 2 1 76 gridXEx gridYEx oneF oneF rawEx 0 3 6 =
      sigmoidR (predT 1 rawEx 0 0 1 1 6) ∧
    (∀ k : ℕ, outputAt 1 2 1 76 gridXEx gridYEx oneF oneF rawEx 0 3 (7 + k)
      = sigmoidR (predT 1 rawEx 0 0 1 1 (7 + k))) ∧
    ((1 : ℝ) = 1 →
      outputAt 1 2 1 76 gridXEx gridYEx oneF oneF rawEx 0 3 0 =
        (sigmoidR (predT 1 rawEx 0 0 1 1 0) + gridXEx 1 1) * 76) ∧
    3 < 1 * (2 * 2) :=
  spec_C4 1 1 2 1 76 gridXEx gridYEx oneF oneF rawEx 0 0 1 1 3
    (by norm_num) (by norm_num) (by norm_num) (by norm_num)

theorem getD_map_of_lt {α β : Type} (f : α → β) (l : List α) (k : ℕ)
    (h : k < l.length) (d : α) (d' : β) :
    (l.map f).getD k d' = f (l.getD k d) := by
  induction l generalizing k with
  | nil => simp at h
  | cons u us ih =>
    cases k with
    | zero => simp
    | succ k' => simpa using ih k' (by simpa using h)

theorem getD_replicate_of_lt {α : Type} (v : α) (n i : ℕ) (h : i < n)
    (d : α) : (List.replicate n v).getD i d = v := by
  induction n generalizing i with
  | zero => simp at h
  | succ n' ih =>
    cases i with
    | zero => simp [List.replicate]
    | succ i' => simpa [List.replicate] using ih i' (by omega)

theorem getD_range_of_lt (g i : ℕ) (h : i < g) :
    (List.range g).getD i 0 = i := by
  rw [List.getD_eq_getElem?_getD, List.getElem?_range h]
  rfl

/-- `torch.arange(g, dtype=float)`. -/
def arangeQ (g : ℕ) : List ℚ := (List.range g).map fun j : ℕ => (j : ℚ)

/-- `torch.arange(g).repeat(g, 1)`: `g` identical rows `0, 1, ..., g-1`;
the value of `self.grid_x` (the singleton leading view dimensions carry no
information in the embedding). -/
def gridXMat (g : ℕ) : List (List ℚ) := List.replicate g (arangeQ g)

/-- `.t()` on a `g × g` tensor: index transposition. -/
def tDot (g : ℕ) (m : List (List ℚ)) : List (List ℚ) :=
  (List.range g).map fun i => (List.range g).map fun j => (m.getD j []).getD i 0

theorem arangeQ_getD (g i : ℕ) (h : i < g) : (arangeQ g).getD i 0 = i := by
  rw [arangeQ,
    getD_map_of_lt (fun j : ℕ => (j : ℚ)) (List.range g) i
      (by simpa using h) 0 0,
    getD_range_of_lt g i h]

theorem gridXMat_getD (g i j : ℕ) (hi : i < g) (hj : j < g) :
    ((gridXMat g).getD i []).getD j 0 = j := by
  rw [gridXMat, getD_replicate_of_lt _ _ _ hi, arangeQ_getD g j hj]

theorem tDot_getD (g i j : ℕ) (m : List (List ℚ)) (hi : i < g) (hj : j < g) :
    ((tDot g m).getD i []).getD j 0 = ((m.getD j []).getD i 0) := by
  rw [tDot,
    getD_map_of_lt (fun i' : ℕ => (List.range g).map
        fun j' => (m.getD j' []).getD i' 0)
      (List.range g) i (by simpa using hi) 0 [],
    getD_range_of_lt g i hi,
    getD_map_of_lt (fun j' : ℕ => (m.getD j' []).getD i 0) (List.range g) j
      (by simpa using hj) 0 0,
    getD_range_of_lt g j hj]

/-- The mutable attributes of a `YoloLayer` instance: the five constructor
arguments plus the lazily recomputed grid-geometry cache (`grid_size`,
`img_size`, `stride`, `grid_x`, `grid_y`, `scaled_anchors`). The loss
weights, `seen` and `metrics` carry no geometry and are omitted. -/
structure YoloState where
  num_classes : ℕ
  anchors : List Anchor
  stride : ℚ
  scale_x_y : ℚ
  ignore_thresh : ℚ
  grid_size : ℕ
  img_size : ℚ
  grid_x : List (List ℚ)
  grid_y : List (List ℚ)
  scaled_anchors : List Anchor

/-- `YoloLayer.__init__`: stores the constructor arguments and initializes
the dummy cache `grid_size = 0`, `img_size = 0` (the geometry tensors do
not exist yet; the embedding gives them empty placeholders). -/
def initState (nc : ℕ) (anchors : List Anchor) (stride sxy thresh : ℚ) :
    YoloState where
  num_classes := nc
  anchors := anchors
  stride := stride
  scale_x_y := sxy
  ignore_thresh := thresh
  grid_size := 0
  img_size := 0
  grid_x := []
  grid_y := []
  scaled_anchors := []

/-- `compute_grid_offsets(grid_size)`, lines 45-56: caches the new grid
size, overwrites `self.stride = self.img_size / self.grid_size`, rebuilds
the offset grids and rescales every anchor by the new stride. -/
def compute_grid_offsets (st : YoloState) (g : ℕ) : YoloState :=
  let stride' := st.img_size / (g : ℚ)
  { st with
    grid_size := g
    stride := stride'
    grid_x := gridXMat g
    grid_y := tDot g (gridXMat g)
    scaled_anchors :=
      st.anchors.map fun a => ⟨a.w / stride', a.h / stride', a.im, a.re⟩ }

/-- The state effect of one `forward` call (lines 130, 148-150):
`self.img_size = img_size`, then recompute the grid offsets exactly when
the incoming grid size differs from the cached one. -/
def forwardGeom (st : YoloState) (img : ℚ) (g : ℕ) : YoloState :=
  let st1 := { st with img_size := img }
  if g ≠ st1.grid_size then compute_grid_offsets st1 g else st1

/-- The state after a sequence of `forward` calls with the given
`(img_size, grid_size)` arguments. -/
def forwardCalls (st : YoloState) (calls : List (ℚ × ℕ)) : YoloState :=
  calls.foldl (fun s c => forwardGeom s c.1 c.2) st

/-- Claim C6: whenever the incoming grid size differs from the cached one
(the very first call included, since the constructor caches 0), the whole
grid geometry is recomputed: exact stride `img_size / grid_size`,
`grid_x[i, j] = j`, `grid_y[i, j] = i`, and each scaled anchor is
`(w / stride, h / stride, im, re)`; when the grid size matches the cache,
the only state change is the stored `img_size`. -/
theorem spec_C6 :
    (∀ nc anchors sd sxy th,
      (initState nc anchors sd sxy th).grid_size = 0) ∧
    (∀ (st : YoloState) (img : ℚ) (g : ℕ), g ≠ st.grid_size →
      (forwardGeom st img g).stride = img / g ∧
      (forwardGeom st img g).grid_size = g ∧
      ((g : ℚ) ≠ 0 → (forwardGeom st img g).stride * g = img) ∧
      (∀ i j, i < g → j < g →
        ((forwardGeom st img g).grid_x.getD i []).getD j 0 = j ∧
        ((forwardGeom st img g).grid_y.getD i []).getD j 0 = i) ∧
      (∀ k, k < st.anchors.length →
        (forwardGeom st img g).scaled_anchors.getD k anchor0 =
          ⟨(st.anchors.getD k anchor0).w / (img / g),
           (st.anchors.getD k anchor0).h / (img / g),
           (st.anchors.getD k anchor0).im,
           (st.anchors.getD k anchor0).re⟩)) ∧
    (∀ (st : YoloState) (img : ℚ) (g : ℕ), g = st.grid_size →
      forwardGeom st img g = { st with img_size := img }) := by
  refine ⟨fun _ _ _ _ _ => rfl, ?_, ?_⟩
  · intro st img g hne
    have hstep : forwardGeom st img g
        = compute_grid_offsets { st with img_size := img } g := by
      simp [forwardGeom, hne]
    rw [hstep]
    refine ⟨rfl, rfl, ?_, ?_, ?_⟩
    · intro hg
      exact div_mul_cancel₀ img hg
    · intro i j hi hj
      constructor
      · simpa [compute_grid_offsets] using gridXMat_getD g i j hi hj
      · simp only [compute_grid_offsets]
        rw [tDot_getD g i j (gridXMat g) hi hj, gridXMat_getD g j i hj hi]
    · intro k hk
      simp only [compute_grid_offsets]
      rw [getD_map_of_lt
        (fun a : Anchor => (⟨a.w / (img / g), a.h / (img / g), a.im, a.re⟩ :
          Anchor)) st.anchors k hk anchor0 anchor0]
  · intro st img g heq
    simp [forwardGeom, heq]

/-- Witness for C6: starting from a freshly constructed state with cached
grid size 0, a forward call at `img = 608`, `g = 8` recomputes stride to
76, fills the offset grids and rescales the anchor; a second call at the
same grid size only stores the new image size. -/
theorem spec_C6_witness :
    (initState 1 ancEx 32 1 (1 / 2)).grid_size = 0 ∧
    (forwardGeom (initState 1 ancEx 32 1 (1 / 2)) 608 8).stride = 608 / 8 ∧
    ((forwardGeom (initState 1 ancEx 32 1 (1 / 2)) 608 8).grid_x.getD 3 []).getD
      5 0 = 5 ∧
    ((forwardGeom (initState 1 ancEx 32 1 (1 / 2)) 608 8).grid_y.getD 3 []).getD
      5 0 = 3 ∧
    (forwardGeom (initState 1 ancEx 32 1 (1 / 2)) 608 8).scaled_anchors.getD
      0 anchor0 =
      ⟨(ancEx.getD 0 anchor0).w / ((608 : ℚ) / 8),
       (ancEx.getD 0 anchor0).h / ((608 : ℚ) / 8),
       (ancEx.getD 0 anchor0).im, (ancEx.getD 0 anchor0).re⟩ ∧
    forwardGeom (forwardGeom (initState 1 ancEx 32 1 (1 / 2)) 608 8) 416 8 =
      { forwardGeom (initState 1 ancEx 32 1 (1 / 2)) 608 8 with
          img_size := 416 } := by
  have h0 : (8 : ℕ) ≠ (initState 1 ancEx 32 1 (1 / 2)).grid_size := by
    simp [initState]
  have h8 : (8 : ℕ)
      = (forwardGeom (initState 1 ancEx 32 1 (1 / 2)) 608 8).grid_size := by
    rw [(spec_C6.2.1 (initState 1 ancEx 32 1 (1 / 2)) 608 8 h0).2.1]
  refine ⟨spec_C6.1 1 ancEx 32 1 (1 / 2),
    (spec_C6.2.1 _ 608 8 h0).1,
    ((spec_C6.2.1 _ 608 8 h0).2.2.2.1 3 5 (by norm_num) (by norm_num)).1,
    ((spec_C6.2.1 _ 608 8 h0).2.2.2.1 3 5 (by norm_num) (by norm_num)).2,
    ?_, spec_C6.2.2 _ 416 8 h8⟩
  exact (spec_C6.2.1 _ 608 8 h0).2.2.2.2 0 (by simp [ancEx, initState])

theorem forwardGeom_preserves (st : YoloState) (img : ℚ) (g : ℕ) :
    (forwardGeom st img g).num_classes = st.num_classes ∧
    (forwardGeom st img g).anchors = st.anchors ∧
    (forwardGeom st img g).scale_x_y = st.scale_x_y ∧
    (forwardGeom st img g).ignore_thresh = st.ignore_thresh := by
  by_cases h : g ≠ st.grid_size
  · simp [forwardGeom, h, compute_grid_offsets]
  · simp [forwardGeom, h]

theorem forwardCalls_preserves (st : YoloState) (calls : List (ℚ × ℕ)) :
    (forwardCalls st calls).num_classes = st.num_classes ∧
    (forwardCalls st calls).anchors = st.anchors ∧
    (forwardCalls st calls).scale_x_y = st.scale_x_y ∧
    (forwardCalls st calls).ignore_thresh = st.ignore_thresh := by
  induction calls generalizing st with
  | nil => exact ⟨rfl, rfl, rfl, rfl⟩
  | cons c cs ih =>
    have hstep := forwardGeom_preserves st c.1 c.2
    have htail := ih (forwardGeom st c.1 c.2)
    have hfold : forwardCalls st (c :: cs)
        = forwardCalls (forwardGeom st c.1 c.2) cs := rfl
    rw [hfold]
    exact ⟨htail.1.trans hstep.1, htail.2.1.trans hstep.2.1,
      htail.2.2.1.trans hstep.2.2.1, htail.2.2.2.trans hstep.2.2.2⟩

/-- Counterexample to claim C8 as stated: `stride` is listed among the
immutable constructor-supplied fields, but a single forward call at
`img_size = 608`, `grid_size = 8` overwrites the constructed stride 32
with `608 / 8 = 76` (line 48 of the source). -/
theorem spec_C8_counterexample :
    (forwardCalls (initState 1 ancEx 32 1 (1 / 2)) [(608, 8)]).stride ≠ 32
      ∧ (initState 1 ancEx 32 1 (1 / 2)).stride = 32 := by
  constructor
  · have h : (forwardCalls (initState 1 ancEx 32 1 (1 / 2))
        [(608, 8)]).stride = 608 / 8 := by
      norm_num [forwardCalls, forwardGeom, initState, compute_grid_offsets]
    rw [h]
    norm_num
  · rfl

/-- Claim C8 amended: of the constructor-supplied configuration fields,
`num_classes`, `anchors`, `scale_x_y` and `ignore_thresh` are unchanged by
every sequence of forward calls; `stride` is not immutable — it is
overwritten with `img_size / grid_size` whenever the grid geometry is
recomputed. -/
theorem spec_C8 (nc : ℕ) (anchors : List Anchor) (sd sxy th : ℚ)
    (calls : List (ℚ × ℕ)) :
    (forwardCalls (initState nc anchors sd sxy th) calls).num_classes = nc ∧
    (forwardCalls (initState nc anchors sd sxy th) calls).anchors
      = anchors ∧
    (forwardCalls (initState nc anchors sd sxy th) calls).scale_x_y = sxy ∧
    (forwardCalls (initState nc anchors sd sxy th) calls).ignore_thresh
      = th ∧
    (∀ (st : YoloState) (img : ℚ) (g : ℕ), g ≠ st.grid_size →
      (forwardGeom st img g).stride = img / g) := by
  have h := forwardCalls_preserves (initState nc anchors sd sxy th) calls
  refine ⟨h.1, h.2.1, h.2.2.1, h.2.2.2, ?_⟩
  intro st img g hne
  simp [forwardGeom, hne, compute_grid_offsets]

/-- Witness for the amended C8: the implication about stride applies to
the constructed state, giving `608 / 8 = 76` after the first call. -/
theorem spec_C8_witness :
    (forwardCalls (initState 1 ancEx 32 1 (1 / 2)) []).num_classes = 1 ∧
    (forwardGeom (initState 1 ancEx 32 1 (1 / 2)) 608 8).stride
      = 608 / 8 := by
  refine ⟨(spec_C8 1 ancEx 32 1 (1 / 2) []).1, ?_⟩
  exact (spec_C8 1 ancEx 32 1 (1 / 2) []).2.2.2.2
    (initState 1 ancEx 32 1 (1 / 2)) 608 8 (by simp [initState])

/-- Row-major enumeration of the `(batch, anchor, row, col)` index space of
the rank-4 tensors. -/
def idx4List (nB nA g : ℕ) : List Idx4 :=
  (List.range nB).flatMap fun b =>
    (List.range nA).flatMap fun a =>
      (List.range g).flatMap fun j =>
        (List.range g).map fun i => (b, a, j, i)

/-- Row-major enumeration of the rank-5 class-tensor index space. -/
def idx5List (nB nA g nC : ℕ) : List Idx5 :=
  (List.range nB).flatMap fun b =>
    (List.range nA).flatMap fun a =>
      (List.range g).flatMap fun j =>
        (List.range g).flatMap fun i =>
          (List.range nC).map fun c => (b, a, j, i, c)

/-- Boolean mask selection `t[mask]` on a rank-4 tensor: the selected
indices in row-major order. -/
def selIdx (nB nA g : ℕ) (mask : Idx4 → Bool) : List Idx4 :=
  (idx4List nB nA g).filter mask

/-- Mask selection on the rank-5 class tensor (the mask spans the first
four dimensions). -/
def selIdx5 (nB nA g nC : ℕ) (mask : Idx4 → Bool) : List Idx5 :=
  (idx5List nB nA g nC).filter fun s => mask (s.1, s.2.1, s.2.2.1, s.2.2.2.1)

/-- `nn.MSELoss()` (mean reduction) between the mask-selected entries of
two rank-4 tensors; the mean of an empty selection is NaN (`none`). -/
noncomputable def mseMasked (nB nA g : ℕ) (mask : Idx4 → Bool)
    (pred tgt : Idx4 → ℝ) : Option ℝ :=
  let sel := selIdx nB nA g mask
  if sel.isEmpty then none
  else some (((sel.map fun s => (pred s - tgt s) ^ 2).sum) / sel.length)

/-- One binary-cross-entropy summand `-(t·log p + (1-t)·log(1-p))`. -/
noncomputable def bceTerm (p t : ℝ) : ℝ :=
  -(t * Real.log p + (1 - t) * Real.log (1 - p))

/-- `nn.BCELoss()` (mean reduction) between mask-selected entries; NaN
(`none`) on an empty selection. -/
noncomputable def bceMasked (nB nA g : ℕ) (mask : Idx4 → Bool)
    (pred tgt : Idx4 → ℝ) : Option ℝ :=
  let sel := selIdx nB nA g mask
  if sel.isEmpty then none
  else some (((sel.map fun s => bceTerm (pred s) (tgt s)).sum) / sel.length)

/-- `nn.BCELoss()` over the rank-5 class tensors restricted by a rank-4
mask. -/
noncomputable def bceMasked5 (nB nA g nC : ℕ) (mask : Idx4 → Bool)
    (pred tgt : Idx5 → ℝ) : Option ℝ :=
  let sel := selIdx5 nB nA g nC mask
  if sel.isEmpty then none
  else some (((sel.map fun s => bceTerm (pred s) (tgt s)).sum) / sel.length)

/-- NaN-propagating addition of loss scalars. -/
def nAdd : Option ℝ → Option ℝ → Option ℝ
  | some a, some b => some (a + b)
  | _, _ => none

/-- NaN-propagating scalar multiple of a loss scalar. -/
def nSMul (c : ℝ) : Option ℝ → Option ℝ
  | some a => some (c * a)
  | none => none

/-- `self.obj_scale = 5`. -/
def obj_scale : ℝ := 5

/-- `self.noobj_scale = 1`. -/
def noobj_scale : ℝ := 1

/-- All loss scalars computed by the training branch of `forward`
(lines 178-189). -/
structure LossOut where
  loss_x : Option ℝ
  loss_y : Option ℝ
  loss_w : Option ℝ
  loss_h : Option ℝ
  loss_im : Option ℝ
  loss_re : Option ℝ
  loss_eular : Option ℝ
  loss_conf_obj : Option ℝ
  loss_conf_noobj : Option ℝ
  loss_conf : Option ℝ
  loss_cls : Option ℝ
  total : Option ℝ

/-- The training-branch loss computation of `forward`: build the targets
at grid size `g` (the anchors argument is `self.scaled_anchors`), then
compare the pre-offset prediction channels against them over the masks. -/
noncomputable def runLoss (nB nA g nC : ℕ) (sxy : ℝ)
    (raw : ℕ → ℕ → ℕ → ℕ → ℝ) (iou : IouFn) (anchors : List Anchor)
    (thresh : ℚ) (targets : List GTRow) : LossOut :=
  let obj := objMaskF iou anchors g targets
  let noobj := noobjMaskF iou anchors g thresh targets
  let lx := mseMasked nB nA g obj
    (fun s => xOutF nC sxy raw s.1 s.2.1 s.2.2.1 s.2.2.2)
    (fun s => ((txT iou anchors g targets s : ℚ) : ℝ))
  let ly := mseMasked nB nA g obj
    (fun s => yOutF nC sxy raw s.1 s.2.1 s.2.2.1 s.2.2.2)
    (fun s => ((tyT iou anchors g targets s : ℚ) : ℝ))
  let lw := mseMasked nB nA g obj
    (fun s => predT nC raw s.1 s.2.1 s.2.2.1 s.2.2.2 2)
    (twT iou anchors g targets)
  let lh := mseMasked nB nA g obj
    (fun s => predT nC raw s.1 s.2.1 s.2.2.1 s.2.2.2 3)
    (thT iou anchors g targets)
  let lim := mseMasked nB nA g obj
    (fun s => predT nC raw s.1 s.2.1 s.2.2.1 s.2.2.2 4)
    (fun s => ((timT iou anchors g targets s : ℚ) : ℝ))
  let lre := mseMasked nB nA g obj
    (fun s => predT nC raw s.1 s.2.1 s.2.2.1 s.2.2.2 5)
    (fun s => ((treT iou anchors g targets s : ℚ) : ℝ))
  let leular := nAdd lim lre
  let lco := bceMasked nB nA g obj
    (fun s => sigmoidR (predT nC raw s.1 s.2.1 s.2.2.1 s.2.2.2 6))
    (fun s => ((tconfT iou anchors g targets s : ℚ) : ℝ))
  let lcn := bceMasked nB nA g noobj
    (fun s => sigmoidR (predT nC raw s.1 s.2.1 s.2.2.1 s.2.2.2 6))
    (fun s => ((tconfT iou anchors g targets s : ℚ) : ℝ))
  let lconf := nAdd (nSMul obj_scale lco) (nSMul noobj_scale lcn)
  let lcls := bceMasked5 nB nA g nC obj
    (fun s => sigmoidR
      (predT nC raw s.1 s.2.1 s.2.2.1 s.2.2.2.1 (7 + s.2.2.2.2)))
    (fun s => ((tclsT iou anchors g targets s : ℚ) : ℝ))
  let ltot := nAdd (nAdd (nAdd (nAdd (nAdd (nAdd lx ly) lw) lh) leular)
    lconf) lcls
  { loss_x := lx, loss_y := ly, loss_w := lw, loss_h := lh, loss_im := lim
    loss_re := lre, loss_eular := leular, loss_conf_obj := lco
    loss_conf_noobj := lcn, loss_conf := lconf, loss_cls := lcls
    total := ltot }

/-- The value returned by `forward`: always the decoded output, paired
with the loss — the literal `0` when no ground truth is supplied, the
total loss otherwise. -/
noncomputable def forwardFn (nB nA g nC : ℕ) (sxy stride : ℝ)
    (gridX gridY : ℕ → ℕ → ℝ) (anchorW anchorH : ℕ → ℝ)
    (raw : ℕ → ℕ → ℕ → ℕ → ℝ) (iou : IouFn) (anchors : List Anchor)
    (thresh : ℚ) (targets : Option (List GTRow)) :
    (ℕ → ℕ → ℕ → ℝ) × Option ℝ :=
  (outputAt nC g sxy stride gridX gridY anchorW anchorH raw,
    match targets with
    | none => some 0
    | some ts => (runLoss nB nA g nC sxy raw iou anchors thresh ts).total)

theorem selIdx_empty_targets (nB nA g : ℕ) (iou : IouFn)
    (anchors : List Anchor) :
    selIdx nB nA g (objMaskF iou anchors g []) = [] := by
  have hmask : objMaskF iou anchors g ([] : List GTRow) = fun _ => false :=
    rfl
  rw [selIdx, hmask]
  exact List.filter_false _

theorem selIdx5_empty_targets (nB nA g nC : ℕ) (iou : IouFn)
    (anchors : List Anchor) :
    selIdx5 nB nA g nC (objMaskF iou anchors g []) = [] := by
  have hmask : objMaskF iou anchors g ([] : List GTRow) = fun _ => false :=
    rfl
  rw [selIdx5, hmask]
  exact List.filter_false _

/-- Claim C1 (bug evidence): with zero ground-truth boxes `obj_mask` is
empty, and every `obj_mask`-restricted loss is the mean of an empty
selection — NaN (`none`), not zero — so the total loss is NaN instead of
the no-object confidence term, which by itself is a well-defined value
(`isSome`) at a concrete positive-size input. -/
theorem spec_C1 :
    (∀ (nB nA g nC : ℕ) (sxy : ℝ) (raw : ℕ → ℕ → ℕ → ℕ → ℝ) (iou : IouFn)
        (anchors : List Anchor) (thresh : ℚ),
      (runLoss nB nA g nC sxy raw iou anchors thresh []).loss_x = none ∧
      (runLoss nB nA g nC sxy raw iou anchors thresh []).loss_y = none ∧
      (runLoss nB nA g nC sxy raw iou anchors thresh []).loss_w = none ∧
      (runLoss nB nA g nC sxy raw iou anchors thresh []).loss_h = none ∧
      (runLoss nB nA g nC sxy raw iou anchors thresh []).loss_im = none ∧
      (runLoss nB nA g nC sxy raw iou anchors thresh []).loss_re = none ∧
      (runLoss nB nA g nC sxy raw iou anchors thresh []).loss_conf_obj
        = none ∧
      (runLoss nB nA g nC sxy raw iou anchors thresh []).loss_cls = none ∧
      (runLoss nB nA g nC sxy raw iou anchors thresh []).total = none) ∧
    (runLoss 1 1 1 1 1 rawEx iouEx ancEx (1 / 2) []).loss_conf_noobj.isSome
      = true := by
  constructor
  · intro nB nA g nC sxy raw iou anchors thresh
    have h4 := selIdx_empty_targets nB nA g iou anchors
    have h5 := selIdx5_empty_targets nB nA g nC iou anchors
    refine ⟨?_, ?_, ?_, ?_, ?_, ?_, ?_, ?_, ?_⟩ <;>
      simp [runLoss, mseMasked, bceMasked, bceMasked5, h4, h5, nAdd, nSMul]
  · rfl

/-- Claim C9: with `targets is None`, `forward` returns the decoded box
list together with the literal loss `0` (lines 170-171). -/
theorem spec_C9 (nB nA g nC : ℕ) (sxy stride : ℝ)
    (gridX gridY : ℕ → ℕ → ℝ) (anchorW anchorH : ℕ → ℝ)
    (raw : ℕ → ℕ → ℕ → ℕ → ℝ) (iou : IouFn) (anchors : List Anchor)
    (thresh : ℚ) :
    forwardFn nB nA g nC sxy stride gridX gridY anchorW anchorH raw iou
        anchors thresh none =
      (outputAt nC g sxy stride gridX gridY anchorW anchorH raw, some 0) :=
  rfl

/-- The slicing view `build_targets` takes of one raw ground-truth row:
columns 0-1 via `target[:, :2]`, columns 2-7 via `target[:, 2:8]` and its
sub-slices. Python slicing is silent about extra columns, so only the
first 8 entries are ever read. -/
def rowToGT (r : List ℚ) : GTRow :=
  ⟨r.getD 0 0, r.getD 1 0, r.getD 2 0, r.getD 3 0, r.getD 4 0, r.getD 5 0,
   r.getD 6 0, r.getD 7 0⟩

/-- `build_targets` on raw rows, through the slicing of lines 83-98. -/
noncomputable def buildTargetsRows (iou : IouFn) (anchors : List Anchor)
    (nG : ℕ) (thresh : ℚ) (rows : List (List ℚ)) : BuiltTargets :=
  build_targets iou anchors nG thresh (rows.map rowToGT)

/-- The entry of `forward`: `x.view(ns, nA, nC + 7, g, g)` succeeds
exactly when the element counts agree (`ns * C * g * g` versus
`ns * nA * (nC + 7) * g * g`), raising a runtime error (`none`) otherwise
before any decode or loss computation. -/
noncomputable def forwardChecked (ns C nA nC g : ℕ) (sxy stride : ℝ)
    (gridX gridY : ℕ → ℕ → ℝ) (anchorW anchorH : ℕ → ℝ)
    (raw : ℕ → ℕ → ℕ → ℕ → ℝ) (iou : IouFn) (anchors : List Anchor)
    (thresh : ℚ) (rows : Option (List (List ℚ))) :
    Option ((ℕ → ℕ → ℕ → ℝ) × Option ℝ) :=
  if ns * C * (g * g) = ns * (nA * (nC + 7)) * (g * g) then
    some (forwardFn ns nA g nC sxy stride gridX gridY anchorW anchorH raw
      iou anchors thresh (rows.map fun rs => rs.map rowToGT))
  else none

theorem rowToGT_take (r : List ℚ) : rowToGT (r.take 8) = rowToGT r := by
  have h : ∀ k, k < 8 → (r.take 8).getD k 0 = r.getD k 0 := by
    intro k hk
    rw [List.getD_eq_getElem?_getD, List.getD_eq_getElem?_getD,
      List.getElem?_take, if_pos hk]
  rw [rowToGT, rowToGT, h 0 (by norm_num), h 1 (by norm_num),
    h 2 (by norm_num), h 3 (by norm_num), h 4 (by norm_num),
    h 5 (by norm_num), h 6 (by norm_num), h 7 (by norm_num)]

/-- The 9-field ground-truth row of the C7 counterexample. -/
def rowNine : List ℚ := [0, 0, 1 / 2, 1 / 2, 1 / 4, 1 / 4, 0, 1, 5]

/-- Counterexample to claim C7 as stated: a ground-truth row with 9 fields
is not rejected — `build_targets` silently reads only its first 8 columns
(the result coincides with the truncated row) and happily marks the
assignment slot, with no validation error anywhere. -/
theorem spec_C7_counterexample :
    rowNine.length ≠ 8 ∧
    buildTargetsRows iouEx ancEx 2 (1 / 2) [rowNine]
      = buildTargetsRows iouEx ancEx 2 (1 / 2) [rowNine.take 8] ∧
    (buildTargetsRows iouEx ancEx 2 (1 / 2) [rowNine]).obj (0, 0, 1, 1)
      = true := by
  refine ⟨by norm_num [rowNine], ?_, ?_⟩
  · rw [buildTargetsRows, buildTargetsRows, List.map_singleton,
      List.map_singleton, rowToGT_take]
  · have hrow : rowToGT rowNine = rowEx := by
      norm_num [rowToGT, rowNine, rowEx]
    show objMaskF iouEx ancEx 2 ([rowNine].map rowToGT) (0, 0, 1, 1) = true
    rw [List.map_singleton, hrow]
    exact (objMaskF_true_iff _ _ _ _ _).mpr ⟨rowEx, by simp, slotF_rowEx⟩

/-- Claim C7 amended: a channel dimension different from
`num_anchors * (7 + num_classes)` (with positive batch and grid) makes the
initial `view` fail before any computation; but ground-truth rows are
never validated — rows with more than 8 fields are silently truncated to
their first 8 columns rather than rejected. -/
theorem spec_C7 :
    (∀ (ns C nA nC g : ℕ) (sxy stride : ℝ) (gridX gridY : ℕ → ℕ → ℝ)
        (anchorW anchorH : ℕ → ℝ) (raw : ℕ → ℕ → ℕ → ℕ → ℝ) (iou : IouFn)
        (anchors : List Anchor) (thresh : ℚ)
        (rows : Option (List (List ℚ))),
      0 < ns → 0 < g → C ≠ nA * (nC + 7) →
      forwardChecked ns C nA nC g sxy stride gridX gridY anchorW anchorH
        raw iou anchors thresh rows = none) ∧
    (∀ (iou : IouFn) (anchors : List Anchor) (nG : ℕ) (thresh : ℚ)
        (rows : List (List ℚ)),
      (∀ r ∈ rows, 8 ≤ r.length) →
      buildTargetsRows iou anchors nG thresh
          (rows.map fun r => r.take 8)
        = buildTargetsRows iou anchors nG thresh rows) := by
  constructor
  · intro ns C nA nC g sxy stride gridX gridY anchorW anchorH raw iou
      anchors thresh rows hns hg hC
    rw [forwardChecked, if_neg]
    intro hc
    rw [Nat.mul_assoc, Nat.mul_assoc] at hc
    have h1 : C * (g * g) = nA * (nC + 7) * (g * g) :=
      Nat.eq_of_mul_eq_mul_left hns hc
    exact hC (Nat.eq_of_mul_eq_mul_right (by positivity) h1)
  · intro iou anchors nG thresh rows hlen
    rw [buildTargetsRows, buildTargetsRows, List.map_map]
    congr 1
    refine List.map_congr_left ?_
    intro r hr
    exact rowToGT_take r

/-- Witness for the amended C7: channel dimension 5 with one anchor and
one class (expected 8) is refused at a positive batch and grid; the
truncation identity holds at the concrete 9-field row. -/
theorem spec_C7_witness :
    forwardChecked 1 5 1 1 1 1 76 gridXEx gridYEx oneF oneF rawEx iouEx
      ancEx (1 / 2) none = none ∧
    buildTargetsRows iouEx ancEx 2 (1 / 2) ([rowNine].map fun r => r.take 8)
      = buildTargetsRows iouEx ancEx 2 (1 / 2) [rowNine] := by
  constructor
  · exact spec_C7.1 1 5 1 1 1 1 76 gridXEx gridYEx oneF oneF rawEx iouEx
      ancEx (1 / 2) none (by norm_num) (by norm_num) (by norm_num)
  · refine spec_C7.2 iouEx ancEx 2 (1 / 2) [rowNine] ?_
    intro r hr
    rw [List.mem_singleton.mp hr]
    norm_num [rowNine]
